import Mathlib

/-!
Verification of the resilient multi-source aggregation and psychographic
inference engine of the `target` repository.

The development shallowly embeds the code found in the repository's
documentation modules (`SIDRAClient.get_table`, `NewsScraper.scrape_news`,
`MaximumGranularityOrchestrator.extract_maximum_granularity_data`,
`IntelligenceOrchestratorV2._calculate_precise_market_size`, the retry and
circuit-breaker configurations) and proves or refutes the specified
properties.  Machine floats are modelled as exact rationals; Python strings
as `List Char`; raised exceptions as `Except`.
-/

namespace Target

/-! ### Cache key derivation (`SIDRAClient.get_table`)

The source computes the cache key as
`f"{table_code}:{json.dumps(params, sort_keys=True)}"`.
We model `json.dumps` on a string-valued parameter dictionary:
keys are sorted, each key/value is quoted with JSON escaping, entries are
joined with a comma-space separator and wrapped in braces (Python's default
separators are comma-space and colon-space).  The escape table covers the
quote, the backslash and the common control characters; remaining
characters are emitted verbatim, which keeps the encoding injective just
as Python's full escape table does. -/

/-- Code letter of an escaped control character (identity on the quote and
the backslash, whose escape pairs repeat the character itself). -/
def escCode (c : Char) : Char :=
  if c = '\n' then 'n' else if c = '\t' then 't' else if c = '\r' then 'r' else c

/-- JSON escape of a single character, following Python `json.dumps`: the
quote, the backslash and the common control characters become backslash
pairs, everything else is emitted verbatim. -/
def escCh (c : Char) : List Char :=
  if c = '"' ∨ c = '\\' ∨ c = '\n' ∨ c = '\t' ∨ c = '\r' then '\\' :: [escCode c]
  else [c]

/-- JSON escape of a character sequence. -/
def escL : List Char → List Char
  | [] => []
  | c :: s => escCh c ++ escL s

/-- A JSON string literal: quote, escaped content, quote. -/
def quoteC (s : List Char) : List Char :=
  '"' :: (escL s ++ ['"'])

/-- One serialized dictionary entry: `"key": "value"`. -/
def entStr (e : String × String) : List Char :=
  quoteC e.1.data ++ ':' :: ' ' :: quoteC e.2.data

/-- Serialized entry list joined by `, ` (Python's default separator). -/
def entriesL : List (String × String) → List Char
  | [] => []
  | [e] => entStr e
  | e :: e2 :: es => entStr e ++ ',' :: ' ' :: entriesL (e2 :: es)

/-- Serialized dictionary: entries wrapped in braces. -/
def dumpsL (ps : List (String × String)) : List Char :=
  '{' :: (entriesL ps ++ ['}'])

/-- Key order used by `sort_keys=True`. -/
abbrev keyLe (a b : String × String) : Prop := a.1 ≤ b.1

/-- Strict key order; on parameter lists with distinct keys the sorted
order is strict, which makes the sorted form canonical. -/
abbrev keyLt (a b : String × String) : Prop := a.1 < b.1

instance : IsTotal (String × String) keyLe := ⟨fun a b => le_total a.1 b.1⟩

instance : IsTrans (String × String) keyLe := ⟨fun _ _ _ h1 h2 => le_trans h1 h2⟩

instance : IsAntisymm (String × String) keyLt :=
  ⟨fun _ _ h1 h2 => absurd h1 (lt_asymm h2)⟩

/-- Canonical parameter order: sorting by key models `sort_keys=True`. -/
def sortParams (ps : List (String × String)) : List (String × String) :=
  List.insertionSort keyLe ps

/-- Cache key of `get_table`: `f"{table_code}:{json.dumps(params, sort_keys=True)}"`. -/
def cacheKeyL (tableCode : String) (params : List (String × String)) : List Char :=
  tableCode.data ++ ':' :: dumpsL (sortParams params)

/-! ### `SIDRAClient` TTL cache (`get_table`) -/

/-- A cached provider response with its insertion time (`TTLCache` entry). -/
structure CacheEntry where
  key : List Char
  storedAt : Nat
  payload : String
deriving DecidableEq

/-- Client state: the TTL cache contents, newest entry first. -/
structure SIDRAState where
  cache : List CacheEntry
deriving DecidableEq

/-- Lookup models `cache_key in self.cache` of `cachetools.TTLCache`:
an entry answers only while `now < stored_at + ttl`. -/
def cacheLookup (now ttl : Nat) (cache : List CacheEntry) (k : List Char) : Option String :=
  (cache.find? (fun e => e.key == k && decide (now < e.storedAt + ttl))).map (fun e => e.payload)

/-- Embedding of `SIDRAClient.get_table`.  The network outcome is an oracle
argument (`net`); the third component counts network calls issued by this
invocation.  On a cache hit the cached payload is returned with no network
call; otherwise the call is issued, a success is stored in the cache and
returned, and a failure is re-raised as `APIError`. -/
def getTable (ttl : Nat) (st : SIDRAState) (now : Nat) (tableCode : String)
    (params : List (String × String)) (net : Except String String) :
    Except String String × SIDRAState × Nat :=
  let k := cacheKeyL tableCode params
  match cacheLookup now ttl st.cache k with
  | some p => (.ok p, st, 0)
  | none =>
    match net with
    | .ok data => (.ok data, ⟨⟨k, now, data⟩ :: st.cache⟩, 1)
    | .error e => (.error ("Erro na API SIDRA: " ++ e), st, 1)

/-! ### `NewsScraper` (`scrape_news`) -/

/-- An article record as produced by the scraper. -/
structure NewsArticle where
  title : String
  body : String
  publishedAt : Nat
  sourceDomain : String
deriving DecidableEq

/-- The scraper's explicit domain allow-list (`NewsScraper.ALLOWED_DOMAINS`). -/
def allowedDomains : List String :=
  ["agenciabrasil.ebc.com.br", "agenciagov.ebc.com.br", "www.ibge.gov.br",
   "agenciadenoticias.ibge.gov.br", "www.gov.br/agenciabrasil",
   "agenciabrasil.ebc.com.br/radioagencia"]

/-- Modelled from the spec: the body of `NewsScraper._search_domain_news` is
absent from the sources (only its caller `scrape_news` is present).  Per the
spec the adapter "parses retrieved pages into article records … filtered to
an explicit domain allow-list — any response from a non-allow-listed domain
is discarded, never surfaced", and filters by the recency window.  The raw
retrieval is an oracle `fetch` from base URL and query to candidate
articles; the adapter keeps allow-listed, recent articles up to the
requested budget. -/
def searchDomainNews (fetch : String → String → List NewsArticle) (baseUrl query : String)
    (maxResults minDate : Nat) : List NewsArticle :=
  ((fetch baseUrl query).filter
    (fun a => decide (a.sourceDomain ∈ allowedDomains) && decide (minDate ≤ a.publishedAt))).take
    maxResults

/-- Descending publication-time order used by
`articles.sort(key=lambda x: x.published_at, reverse=True)`. -/
abbrev pubGe (a b : NewsArticle) : Prop := b.publishedAt ≤ a.publishedAt

instance : IsTotal NewsArticle pubGe := ⟨fun a b => le_total b.publishedAt a.publishedAt⟩

instance : IsTrans NewsArticle pubGe := ⟨fun _ _ _ h1 h2 => le_trans h2 h1⟩

/-- The collection loop of `scrape_news`: iterate over the allow-list,
stopping once `max_results` articles were gathered, asking each domain for
the remaining budget. -/
def collectArticles (fetch : String → String → List NewsArticle) (query : String)
    (maxResults minDate : Nat) : List String → List NewsArticle → List NewsArticle
  | [], acc => acc
  | d :: ds, acc =>
    if maxResults ≤ acc.length then acc
    else
      collectArticles fetch query maxResults minDate ds
        (acc ++ searchDomainNews fetch ("https://" ++ d) query (maxResults - acc.length) minDate)

/-- Embedding of `NewsScraper.scrape_news`: gather per-domain results,
sort by publication date (most recent first) and truncate to
`max_results`. -/
def scrapeNews (fetch : String → String → List NewsArticle) (query : String)
    (maxResults daysBack now : Nat) : List NewsArticle :=
  let minDate := now - daysBack
  let articles := collectArticles fetch query maxResults minDate allowedDomains []
  (List.insertionSort pubGe articles).take maxResults

/-! ### `MaximumGranularityOrchestrator.extract_maximum_granularity_data`

Each provider extraction is wrapped in `try/except` in the source: a raised
provider exception is caught and stored as an error marker in the result
dictionary, and the function always returns the assembled dictionary.  The
provider bodies (SIDRA connector, Google Trends service, news service) are
external calls, modelled as `Except`-valued oracles. -/

/-- Aggregate segment counters of `calculate_market_segments`; the source
reads each with `.get(key, 0)`, so the fields are optional. -/
structure MarketSegments where
  totalPossibleSegments : Option Nat
  geographicSegments : Option Nat
  demographicCombinations : Option Nat
  spendingCategories : Option Nat
deriving DecidableEq

/-- The `ibge_data` section assembled on a successful IBGE extraction. -/
structure IbgeSection where
  rawData : List String
  marketSegments : MarketSegments
  dataQuality : String
deriving DecidableEq

/-- The `google_trends_data` section assembled on a successful extraction. -/
structure TrendsSection where
  trendsByLocation : List String
  temporalPatterns : String
  totalLocations : Nat
deriving DecidableEq

/-- Per-article sentiment as read by the insight combiner
(`article['sentiment_analysis']['overall_polarity']`). -/
structure SentimentAnalysis where
  overallPolarity : ℚ
deriving DecidableEq

/-- One analysed article; the sentiment block may be missing
(`if 'sentiment_analysis' in article`). -/
structure ArticleAnalysis where
  sentimentAnalysis : Option SentimentAnalysis
deriving DecidableEq

/-- The `news_data` section assembled on a successful news extraction. -/
structure NewsSection where
  totalArticles : Nat
  relevantArticles : Nat
  articlesAnalysis : List ArticleAnalysis
  marketSignalsSummary : String
deriving DecidableEq

/-- The `market_size_precision` insight block. -/
structure MarketSizePrecision where
  totalSegmentsIdentified : Nat
  geographicPrecision : Nat
  demographicPrecision : Nat
  spendingCategories : Nat
deriving DecidableEq

/-- The `market_sentiment` insight block. -/
structure MarketSentiment where
  averageSentiment : ℚ
  sentimentTrend : String
  confidenceLevel : String
deriving DecidableEq

/-- The `combined_insights` dictionary: blocks stay empty (`none`) when the
corresponding sections are unavailable. -/
structure Insights where
  marketSizePrecision : Option MarketSizePrecision
  trendCorrelation : Option String
  marketSentiment : Option MarketSentiment
deriving DecidableEq

/-- Embedding of `_combine_maximum_granularity_insights`.  The two helper
analyses (`_analyze_trend_demographic_correlation`,
`_calculate_sentiment_trend`) are absent from the sources and appear as
oracles. -/
def combineInsights (corr : List String → List String → String)
    (sentTrend : List ArticleAnalysis → String)
    (ibge : Except String IbgeSection) (trends : Except String TrendsSection)
    (news : Except String NewsSection) : Insights :=
  let msp : Option MarketSizePrecision :=
    match ibge with
    | .ok s =>
      some ⟨s.marketSegments.totalPossibleSegments.getD 0,
        s.marketSegments.geographicSegments.getD 0,
        s.marketSegments.demographicCombinations.getD 0,
        s.marketSegments.spendingCategories.getD 0⟩
    | .error _ => none
  let tc : Option String :=
    match trends, ibge with
    | .ok t, .ok i => some (corr t.trendsByLocation i.rawData)
    | _, _ => none
  let ms : Option MarketSentiment :=
    match news with
    | .ok n =>
      let scores := n.articlesAnalysis.filterMap
        (fun a => a.sentimentAnalysis.map (fun s => s.overallPolarity))
      some ⟨if scores.length = 0 then 0 else scores.sum / scores.length,
        sentTrend n.articlesAnalysis,
        if 50 < scores.length then "alta" else "media"⟩
    | .error _ => none
  ⟨msp, tc, ms⟩

/-- The result dictionary of `extract_maximum_granularity_data`; each
provider section is either assembled data or the stored error string of the
caught exception. -/
structure OrchResult where
  ibgeData : Except String IbgeSection
  googleTrendsData : Except String TrendsSection
  newsData : Except String NewsSection
  combinedInsights : Except String Insights

/-- The `AllProvidersFailed` error postulated by the specification; the
orchestrator's return type ranges over it so that raising it is
expressible. -/
inductive AllProvidersFailedE where
  | allProvidersFailed
deriving DecidableEq

/-- Embedding of `extract_maximum_granularity_data`.  The geographic focus
is translated through the source's lookup dictionaries (defaulting to the
national level); each provider extraction and the insight combination are
wrapped in `try/except`, so provider failures are stored, never re-raised,
and the assembled result dictionary is always returned. -/
def extractMaximumGranularityData
    (ibgeFetch : String → Except String IbgeSection)
    (trendsFetch : String → Except String TrendsSection)
    (newsFetch : Nat → Except String NewsSection)
    (corr : List String → List String → String)
    (sentTrend : List ArticleAnalysis → String)
    (geographicFocus : String) : Except AllProvidersFailedE OrchResult :=
  let geographicLevel :=
    if geographicFocus = "nacional" then "nacional"
    else if geographicFocus = "regional" then "estado"
    else if geographicFocus = "municipal" then "municipio"
    else "nacional"
  let trendsLevel :=
    if geographicFocus = "nacional" then "country"
    else if geographicFocus = "regional" then "state"
    else if geographicFocus = "municipal" then "city"
    else "country"
  let ibge := ibgeFetch geographicLevel
  let trends := trendsFetch trendsLevel
  let news := newsFetch 90
  let combined := combineInsights corr sentTrend ibge trends news
  .ok ⟨ibge, trends, news, .ok combined⟩

/-! ### `IntelligenceOrchestratorV2._calculate_precise_market_size`

The function reads the demographic base from the IBGE market segments, an
interest multiplier from the Google Trends per-location averages and a
sentiment multiplier from the `market_sentiment` block.  `sentiment_score`
is only bound inside the `if trends_data.get('market_sentiment'):` branch,
yet the confidence expression reads it unconditionally, so the call raises
`NameError` whenever the sentiment block is missing or empty. -/

/-- The `precise_market_size` dictionary (numeric fields). -/
structure PreciseMarketSize where
  demographicBase : ℚ
  interestAdjusted : ℚ
  sentimentAdjusted : ℚ
  confidenceLevel : ℚ
deriving DecidableEq

/-- Normal return values of `_calculate_precise_market_size`: either the
`'error': 'Insufficient IBGE data'` dictionary or the assembled sizes. -/
inductive CalcResult where
  | insufficientIbgeData
  | sizes (r : PreciseMarketSize)
deriving DecidableEq

/-- The runtime fault of the unbound `sentiment_score` read. -/
inductive PyRuntimeError where
  | nameErrorSentimentScore
deriving DecidableEq

/-- Interest multiplier of `_calculate_precise_market_size`: the mean of
the per-location `average_interest` values normalized by 100, and the
neutral 1.0 when `trends_by_location` is missing or empty (Python treats
the two alike). -/
def interestMultiplierOf (interestValues : List ℚ) : ℚ :=
  if interestValues.length = 0 then 1
  else (interestValues.sum / interestValues.length) / 100

/-- Embedding of `_calculate_precise_market_size`.  `targetDemographic` is
`market_segments.get('target_demographic', 0)` when `market_segments` is
present (`none` models a missing or falsy block); `interestValues` are the
`average_interest` values of `trends_by_location`; `marketSentiment` is
the `average_sentiment` of `market_sentiment` when that block is truthy. -/
def calculatePreciseMarketSize (targetDemographic : Option ℚ) (interestValues : List ℚ)
    (marketSentiment : Option ℚ) : Except PyRuntimeError CalcResult :=
  match targetDemographic with
  | none => .ok .insufficientIbgeData
  | some base =>
    let interestMultiplier : ℚ := interestMultiplierOf interestValues
    match marketSentiment with
    | none => .error .nameErrorSentimentScore
    | some s =>
      let sentimentMultiplier : ℚ := max (1 / 2) (1 + s)
      .ok (.sizes ⟨base, base * interestMultiplier,
        base * interestMultiplier * sentimentMultiplier,
        min (min (if 1000 < base then 95 / 100 else 7 / 10)
          (if 1 / 10 < interestMultiplier then 8 / 10 else 1 / 2))
          (if |s| < 3 / 10 then 9 / 10 else 6 / 10)⟩)

/-! ### Per-provider circuit breaker

Modelled from the spec: the repository configures circuit breakers
(`CIRCUIT_BREAKER = ... failure_threshold: 5, recovery_timeout: 300` and the
`@circuit(failure_threshold=5, recovery_timeout=60)` decorator) but the
breaker state machine itself lives in an external library and is absent
from the sources.  The machine follows the specification: state is closed,
open or half-open with a consecutive-failure counter and the opening time;
reaching the threshold opens the circuit; calls while open and inside the
recovery window fail fast with `CircuitOpen` and issue no network call;
once the window has elapsed the next call is the single half-open probe
whose outcome decides the return to closed or back to open. -/

/-- Breaker mode. -/
inductive CBMode where
  | closed
  | open
  | halfOpen
deriving DecidableEq

/-- Breaker configuration (`circuit_failure_threshold`,
`circuit_recovery_seconds`). -/
structure CBConfig where
  failureThreshold : Nat
  recoveryTimeout : Nat
deriving DecidableEq

/-- Per-provider breaker state. -/
structure CBState where
  mode : CBMode
  failures : Nat
  openedAt : Nat
deriving DecidableEq

/-- Outcome of one guarded call. -/
inductive CBOutcome where
  | circuitOpen
  | success
  | failure
deriving DecidableEq

/-- Observable result of one guarded call: whether a network call was
issued, and how the call ended. -/
structure CBCallResult where
  networkCalled : Bool
  outcome : CBOutcome
deriving DecidableEq

/-- Modelled from the spec: one call through the circuit breaker.  `net`
is the network outcome oracle (`true` = the underlying call would
succeed), consulted only when a network call is actually issued. -/
def cbCall (cfg : CBConfig) (s : CBState) (now : Nat) (net : Bool) :
    CBCallResult × CBState :=
  match s.mode with
  | .closed =>
    if net then (⟨true, .success⟩, ⟨.closed, 0, s.openedAt⟩)
    else
      let f := s.failures + 1
      if cfg.failureThreshold ≤ f then (⟨true, .failure⟩, ⟨.open, f, now⟩)
      else (⟨true, .failure⟩, ⟨.closed, f, s.openedAt⟩)
  | .open =>
    if now < s.openedAt + cfg.recoveryTimeout then (⟨false, .circuitOpen⟩, s)
    else
      if net then (⟨true, .success⟩, ⟨.closed, 0, s.openedAt⟩)
      else (⟨true, .failure⟩, ⟨.open, s.failures + 1, now⟩)
  | .halfOpen =>
    if net then (⟨true, .success⟩, ⟨.closed, 0, s.openedAt⟩)
    else (⟨true, .failure⟩, ⟨.open, s.failures + 1, now⟩)

/-! ### Retry with backoff and the 429 cooldown

Modelled from the spec: the sources fix the policy constants
(`RETRY_POLICIES` with `google_trends: max_attempts 3, backoff_factor 0.1,
max_delay 60` and `RATE_LIMIT_DELAY = 60` seconds after a 429) but the
retry loop itself is absent.  Per the spec the delay after a failed
attempt is `backoff_factor * 2^(attempt-1)` capped at `max_delay`, except
that a 429 response forces the fixed cooldown, and no more than
`max_attempts` attempts are made. -/

/-- Retry configuration of one provider. -/
structure RetryConfig where
  maxAttempts : Nat
  backoffFactor : ℚ
  maxDelay : ℚ
  cooldown429 : ℚ
deriving DecidableEq

/-- The search-interest provider's policy: `RETRY_POLICIES['google_trends']`
plus the fixed `RATE_LIMIT_DELAY` cooldown. -/
def googleTrendsRetryConfig : RetryConfig :=
  ⟨3, 1 / 10, 60, 60⟩

/-- Outcome of one raw attempt. -/
inductive AttemptOutcome where
  | ok (payload : String)
  | http429
  | otherError (msg : String)
deriving DecidableEq

/-- Trace of a finished retry loop: final result, number of attempts
issued, and the delays waited between consecutive attempts. -/
structure RetryTrace where
  result : Except String String
  attempts : Nat
  delays : List ℚ

/-- Modelled from the spec: the delay inserted after failed attempt number
`attempt` (1-based): the fixed cooldown after a 429, otherwise exponential
backoff capped at `max_delay`. -/
def retryDelay (cfg : RetryConfig) (attempt : Nat) (was429 : Bool) : ℚ :=
  if was429 then cfg.cooldown429
  else min (cfg.backoffFactor * 2 ^ (attempt - 1)) cfg.maxDelay

/-- Modelled from the spec: the retry loop from attempt number `attempt`
with `fuel` attempts still allowed.  `f` gives each attempt's raw
outcome. -/
def retryGo (cfg : RetryConfig) (f : Nat → AttemptOutcome) (attempt : Nat) :
    Nat → RetryTrace
  | 0 => ⟨.error "ProviderError: no attempts budgeted", 0, []⟩
  | fuel + 1 =>
    match f attempt with
    | .ok p => ⟨.ok p, 1, []⟩
    | o =>
      if fuel = 0 then
        ⟨.error "ProviderError: attempts exhausted", 1, []⟩
      else
        let t := retryGo cfg f (attempt + 1) fuel
        ⟨t.result, t.attempts + 1, retryDelay cfg attempt (o = AttemptOutcome.http429) :: t.delays⟩

/-- Modelled from the spec: run the full retry loop of a provider. -/
def runRetry (cfg : RetryConfig) (f : Nat → AttemptOutcome) : RetryTrace :=
  retryGo cfg f 1 cfg.maxAttempts

/-! ### Psychographic Analyzer

Modelled from the spec: `psychographic_analyzer.py` is referenced by the
implementation plan but absent from the sources.  The analyzer computes
expenditure deltas against the national baseline, scores five fixed
archetype weight vectors by dot product squashed into the unit interval,
selects the maximal archetype with a lexicographic tie-break inside an
epsilon band, and returns the neutral profile (archetype "equilibrado",
confidence 0) when the segment vector is empty. -/

/-- A mapping from expenditure category to proportion of spending. -/
abbrev ExpenditureVector := List (String × ℚ)

/-- The resulting profile. -/
structure PsychographicProfile where
  archetype : String
  confidence : ℚ
  sentimentIndex : ℚ
  expenditureVector : ExpenditureVector
deriving DecidableEq

/-- Proportion of a category inside a vector, zero when absent. -/
def propOf (v : ExpenditureVector) (cat : String) : ℚ :=
  match v.find? (fun e => e.1 = cat) with
  | some e => e.2
  | none => 0

/-- Modelled from the spec: per-category delta between segment and
baseline proportions; categories absent from the segment count as delta
zero. -/
def deltaOf (segment baseline : ExpenditureVector) (cat : String) : ℚ :=
  propOf segment cat - propOf baseline cat

/-- Modelled from the spec: the five archetype weight vectors of §4.5,
with weights following the documented emphases (travel/culture/education
for the experientialist, basic needs for the traditionalist, technology
for the pragmatic innovator, health/organic/public transport for the
sustainability-conscious, apparel/vehicles/luxury for the
status-oriented). -/
def archetypeWeights : List (String × List (String × ℚ)) :=
  [("consciente_sustentavel",
     [("saude", 1), ("alimentacao_organica", 1), ("transporte_publico", 1)]),
   ("experiencialista", [("viagens", 1), ("cultura", 1), ("educacao", 1)]),
   ("pragmatico_inovador", [("tecnologia", 1), ("comunicacao", 1)]),
   ("status_orientado", [("vestuario", 1), ("veiculos", 1), ("luxo", 1)]),
   ("tradicionalista", [("alimentacao", 1), ("habitacao", 1)])]

/-- Modelled from the spec: an algebraic logistic-style squash of a raw
dot-product score into the open unit interval, so that no single category
saturates the score. -/
def squash (x : ℚ) : ℚ :=
  1 / 2 + x / (2 * (1 + |x|))

/-- Raw archetype score: weight vector dotted with the delta vector, then
squashed. -/
def archetypeScore (segment baseline : ExpenditureVector)
    (weights : List (String × ℚ)) : ℚ :=
  squash ((weights.map (fun w => w.2 * deltaOf segment baseline w.1)).sum)

/-- Tie epsilon of the archetype selection. -/
def tieEpsilon : ℚ := 1 / 50

/-- Modelled from the spec: pick the archetype of maximal score; scores
within `tieEpsilon` of the maximum resolve to the lexicographically
smallest identifier. -/
def selectArchetype (scores : List (String × ℚ)) : String × ℚ :=
  let maxScore := (scores.map (fun s => s.2)).foldr max 0
  let band := scores.filter (fun s => maxScore - tieEpsilon ≤ s.2)
  match band.foldr (fun a b? =>
      match b? with
      | none => some a
      | some b => if a.1 ≤ b.1 then some a else some b) none with
  | some w => w
  | none => ("equilibrado", 0)

/-- Signal score table of §4.5, mapping categorical life-evaluation labels
to values in `[-1, 1]`; unknown labels are skipped. -/
def signalScore (label : String) : Option ℚ :=
  if label = "melhor" then some (7 / 10)
  else if label = "pior" then some (-(7 / 10))
  else if label = "otimista" then some (8 / 10)
  else if label = "pessimista" then some (-(8 / 10))
  else if label = "suficiente" then some (6 / 10)
  else if label = "insuficiente" then some (-(6 / 10))
  else if label = "baixo" then some (7 / 10)
  else if label = "alto" then some (-(7 / 10))
  else none

/-- Modelled from the spec: sentiment index as the mean of the mapped
signals rescaled from `[-1, 1]` to `[0, 1]`; missing signals are excluded
from the mean. -/
def sentimentIndexOf (signals : List String) : ℚ :=
  let scores := signals.filterMap signalScore
  if scores.length = 0 then 1 / 2
  else (scores.sum / scores.length + 1) / 2

/-- Modelled from the spec: `PsychographicAnalyzer.analyze`.  An empty
segment vector yields the neutral profile with archetype "equilibrado"
and confidence 0 instead of failing. -/
def analyze (segment baseline : ExpenditureVector) (signals : List String) :
    PsychographicProfile :=
  if segment.isEmpty then
    ⟨"equilibrado", 0, sentimentIndexOf signals, segment⟩
  else
    let scores := archetypeWeights.map
      (fun w => (w.1, archetypeScore segment baseline w.2))
    let sel := selectArchetype scores
    ⟨sel.1, sel.2, sentimentIndexOf signals, segment⟩

/-! ## Theorems -/

/-- C2: for every `QuerySpec`, if a non-expired cache entry exists for its
cache key then `fetch` (`get_table`) returns that cached payload, leaves
the state untouched and issues zero network calls. -/
theorem getTable_cache_hit_zero_network (ttl : Nat) (st : SIDRAState) (now : Nat)
    (tableCode : String) (params : List (String × String)) (net : Except String String)
    (p : String) (h : cacheLookup now ttl st.cache (cacheKeyL tableCode params) = some p) :
    getTable ttl st now tableCode params net = (.ok p, st, 0) := by
  unfold getTable
  simp only [h]

/-- Witness for `getTable_cache_hit_zero_network` at a concrete state. -/
theorem getTable_cache_hit_zero_network_witness :
    cacheLookup 10 3600 [⟨cacheKeyL "t/6401/n1/all" [("f", "c")], 5, "payload"⟩]
        (cacheKeyL "t/6401/n1/all" [("f", "c")]) = some "payload"
    ∧ getTable 3600 ⟨[⟨cacheKeyL "t/6401/n1/all" [("f", "c")], 5, "payload"⟩]⟩ 10
        "t/6401/n1/all" [("f", "c")] (Except.error "network unavailable")
      = (.ok "payload", ⟨[⟨cacheKeyL "t/6401/n1/all" [("f", "c")], 5, "payload"⟩]⟩, 0) := by
  have h : cacheLookup 10 3600 [⟨cacheKeyL "t/6401/n1/all" [("f", "c")], 5, "payload"⟩]
      (cacheKeyL "t/6401/n1/all" [("f", "c")]) = some "payload" := by
    unfold cacheLookup
    simp
  exact ⟨h, getTable_cache_hit_zero_network 3600 _ 10 "t/6401/n1/all" _ _ "payload" h⟩

/-- C1 counterexample: when every dispatched provider fails, the
orchestrator does not raise `AllProvidersFailed`; it returns the assembled
result with per-provider error markers. -/
theorem extract_all_fail_returns_counterexample :
    extractMaximumGranularityData (fun _ => .error "ibge down")
      (fun _ => .error "trends down") (fun _ => .error "news down")
      (fun _ _ => "") (fun _ => "") "nacional"
      = .ok ⟨.error "ibge down", .error "trends down", .error "news down",
          .ok ⟨none, none, none⟩⟩
    ∧ extractMaximumGranularityData (fun _ => .error "ibge down")
      (fun _ => .error "trends down") (fun _ => .error "news down")
      (fun _ _ => "") (fun _ => "") "nacional"
      ≠ .error .allProvidersFailed := by
  constructor
  · rfl
  · intro h
    have h2 : (Except.ok ⟨.error "ibge down", .error "trends down", .error "news down",
        .ok ⟨none, none, none⟩⟩ : Except AllProvidersFailedE OrchResult)
        = .error .allProvidersFailed := h
    exact Except.noConfusion h2

/-- C1 (amended): `extract_maximum_granularity_data` always returns a
result — it never raises, even when every provider fails; in that case
every provider section of the result carries an error marker. -/
theorem extract_run_never_raises (ibgeF : String → Except String IbgeSection)
    (trendsF : String → Except String TrendsSection)
    (newsF : Nat → Except String NewsSection)
    (corr : List String → List String → String)
    (sentTrend : List ArticleAnalysis → String) (focus : String) :
    ∃ r : OrchResult,
      extractMaximumGranularityData ibgeF trendsF newsF corr sentTrend focus = .ok r
      ∧ ((∀ lvl, (ibgeF lvl).isOk = false) → (∀ lvl, (trendsF lvl).isOk = false) →
          (∀ d, (newsF d).isOk = false) →
          r.ibgeData.isOk = false ∧ r.googleTrendsData.isOk = false
            ∧ r.newsData.isOk = false) :=
  ⟨_, rfl, fun h1 h2 h3 => ⟨h1 _, h2 _, h3 _⟩⟩

/-- Witness for `extract_run_never_raises` with three failing providers. -/
theorem extract_run_never_raises_witness :
    ∃ r : OrchResult,
      extractMaximumGranularityData (fun _ => .error "e1") (fun _ => .error "e2")
        (fun _ => .error "e3") (fun _ _ => "") (fun _ => "") "municipal" = .ok r
      ∧ (r.ibgeData.isOk = false ∧ r.googleTrendsData.isOk = false
          ∧ r.newsData.isOk = false) := by
  obtain ⟨r, hr, himp⟩ := extract_run_never_raises (fun _ => .error "e1")
    (fun _ => .error "e2") (fun _ => .error "e3") (fun _ _ => "") (fun _ => "") "municipal"
  refine ⟨r, hr, himp ?_ ?_ ?_⟩ <;> intro z <;> rfl

/-- C4: the code slip behind the missing-sentiment default.  At an input
with a demographic base and interest data but no `market_sentiment` block,
`_calculate_precise_market_size` raises `NameError` (the confidence
expression reads `sentiment_score`, which is only bound inside the
sentiment branch) instead of producing the market size with the neutral
sentiment multiplier 1.0 demanded by the specification. -/
theorem calc_nameerror_on_missing_sentiment :
    calculatePreciseMarketSize (some 50000) [40, 60] none
      = .error .nameErrorSentimentScore := rfl

/-- C5 counterexample: the confidence of the assembled market size is the
minimum of the three per-provider weights, not their product.  At
demographic base 2000, one interest value 80 and sentiment 1/10 the weights
are 0.95, 0.8 and 0.9: the code yields 0.8 while the claimed product is
0.684. -/
theorem confidence_min_counterexample :
    calculatePreciseMarketSize (some 2000) [80] (some (1 / 10))
      = .ok (.sizes ⟨2000, 1600, 1760, 4 / 5⟩)
    ∧ (4 : ℚ) / 5 ≠ (95 / 100) * (8 / 10) * (9 / 10) := by
  constructor
  · simp only [calculatePreciseMarketSize, Except.ok.injEq, CalcResult.sizes.injEq,
      PreciseMarketSize.mk.injEq]
    norm_num [interestMultiplierOf, min_def, max_def, abs_of_nonneg]
  · norm_num

/-- C5 (amended): whenever `_calculate_precise_market_size` returns an
assembled size, its confidence equals the minimum of the three
per-provider confidence weights (0.95 or 0.7 by the demographic base, 0.8
or 0.5 by the interest multiplier, 0.9 or 0.6 by the sentiment magnitude)
and lies in `[0, 1]`. -/
theorem confidence_is_min_of_weights (base : ℚ) (ivs : List ℚ) (s : ℚ)
    (r : PreciseMarketSize)
    (h : calculatePreciseMarketSize (some base) ivs (some s) = .ok (.sizes r)) :
    r.confidenceLevel
      = min (min (if 1000 < base then 95 / 100 else 7 / 10)
          (if 1 / 10 < interestMultiplierOf ivs then 8 / 10 else 1 / 2))
          (if |s| < 3 / 10 then 9 / 10 else 6 / 10)
      ∧ 0 ≤ r.confidenceLevel ∧ r.confidenceLevel ≤ 1 := by
  simp only [calculatePreciseMarketSize, Except.ok.injEq, CalcResult.sizes.injEq] at h
  subst h
  refine ⟨rfl, ?_, ?_⟩
  · rw [le_min_iff, le_min_iff]
    refine ⟨⟨?_, ?_⟩, ?_⟩ <;> split_ifs <;> norm_num
  · refine le_trans (min_le_right _ _) ?_
    split_ifs <;> norm_num

/-- Witness for `confidence_is_min_of_weights` at a concrete input. -/
theorem confidence_is_min_of_weights_witness :
    (4 : ℚ) / 5
      = min (min (if (1000 : ℚ) < 2000 then 95 / 100 else 7 / 10)
          (if 1 / 10 < interestMultiplierOf [80] then 8 / 10 else 1 / 2))
          (if |(1 : ℚ) / 10| < 3 / 10 then 9 / 10 else 6 / 10)
      ∧ (0 : ℚ) ≤ 4 / 5 ∧ (4 : ℚ) / 5 ≤ 1 := by
  have h := confidence_is_min_of_weights 2000 [80] (1 / 10) ⟨2000, 1600, 1760, 4 / 5⟩
    (by
      simp only [calculatePreciseMarketSize, Except.ok.injEq, CalcResult.sizes.injEq,
        PreciseMarketSize.mk.injEq]
      norm_num [interestMultiplierOf, min_def, max_def, abs_of_nonneg])
  exact h

/-- C3: the circuit-breaker state machine invariant.  Reaching the failure
threshold transitions closed→open recording the opening time; every call
while open and inside the recovery window fails with `CircuitOpen`,
issues no network call and leaves the state unchanged; once the window
elapsed, exactly one probe network call is issued and its outcome decides
the transition back to closed or to open. -/
theorem circuit_breaker_state_machine (cfg : CBConfig) (s : CBState) (now : Nat)
    (net : Bool) :
    (s.mode = .closed → net = false → cfg.failureThreshold ≤ s.failures + 1 →
      (cbCall cfg s now net).2.mode = .open ∧ (cbCall cfg s now net).2.openedAt = now
        ∧ (cbCall cfg s now net).1.outcome = .failure)
    ∧ (s.mode = .open → now < s.openedAt + cfg.recoveryTimeout →
        cbCall cfg s now net = (⟨false, .circuitOpen⟩, s))
    ∧ (s.mode = .open → s.openedAt + cfg.recoveryTimeout ≤ now →
        (cbCall cfg s now net).1.networkCalled = true
          ∧ (net = true → (cbCall cfg s now net).2.mode = .closed)
          ∧ (net = false → (cbCall cfg s now net).2.mode = .open
              ∧ (cbCall cfg s now net).2.openedAt = now)) := by
  obtain ⟨mo, fl, op⟩ := s
  refine ⟨?_, ?_, ?_⟩
  · intro hm hn hf
    subst hn
    cases hm
    simp [cbCall, hf]
  · intro hm hlt
    cases hm
    simp [cbCall, hlt]
  · intro hm hge
    cases hm
    have hnlt : ¬ now < op + cfg.recoveryTimeout := not_lt.mpr hge
    cases net with
    | true => simp [cbCall, hnlt]
    | false => simp [cbCall, hnlt]

/-- Witness for `circuit_breaker_state_machine`: a freshly opened breaker
short-circuits a call issued inside the recovery window. -/
theorem circuit_breaker_state_machine_witness :
    cbCall ⟨5, 300⟩ ⟨.open, 5, 10⟩ 20 true = (⟨false, .circuitOpen⟩, ⟨.open, 5, 10⟩) :=
  (circuit_breaker_state_machine ⟨5, 300⟩ ⟨.open, 5, 10⟩ 20 true).2.1 rfl (by decide)

/-- Helper: the attempts and delay schedule of the modelled retry loop,
by induction on the remaining attempt budget. -/
theorem retryGo_spec (cfg : RetryConfig) (f : Nat → AttemptOutcome) :
    ∀ fuel attempt,
      (retryGo cfg f attempt fuel).attempts ≤ fuel
      ∧ ∀ i, i < (retryGo cfg f attempt fuel).delays.length →
          (retryGo cfg f attempt fuel).delays.getD i 0
            = retryDelay cfg (attempt + i) (decide (f (attempt + i) = .http429)) := by
  intro fuel
  induction fuel with
  | zero => intro attempt; exact ⟨Nat.le_refl 0, fun i hi => absurd hi (by simp [retryGo])⟩
  | succ fuel ih =>
    intro attempt
    cases hf : f attempt with
    | ok p =>
      have he : retryGo cfg f attempt (fuel + 1) = ⟨.ok p, 1, []⟩ := by
        simp [retryGo, hf]
      rw [he]
      exact ⟨Nat.succ_le_succ (Nat.zero_le _), fun i hi => absurd hi (by simp)⟩
    | http429 =>
      by_cases hfu : fuel = 0
      · subst hfu
        have he : retryGo cfg f attempt 1 = ⟨.error "ProviderError: attempts exhausted", 1, []⟩ := by
          simp [retryGo, hf]
        rw [he]
        exact ⟨Nat.le_refl 1, fun i hi => absurd hi (by simp)⟩
      · have he : retryGo cfg f attempt (fuel + 1)
            = ⟨(retryGo cfg f (attempt + 1) fuel).result,
               (retryGo cfg f (attempt + 1) fuel).attempts + 1,
               retryDelay cfg attempt true :: (retryGo cfg f (attempt + 1) fuel).delays⟩ := by
          simp [retryGo, hf, hfu]
        rw [he]
        refine ⟨Nat.succ_le_succ (ih (attempt + 1)).1, ?_⟩
        intro i hi
        cases i with
        | zero => simp [hf]
        | succ j =>
          simp only [List.getD_cons_succ]
          simp only [List.length_cons, Nat.succ_lt_succ_iff] at hi
          have hj := (ih (attempt + 1)).2 j hi
          have harr : attempt + 1 + j = attempt + (j + 1) := by omega
          rw [hj, harr]
    | otherError m =>
      by_cases hfu : fuel = 0
      · subst hfu
        have he : retryGo cfg f attempt 1 = ⟨.error "ProviderError: attempts exhausted", 1, []⟩ := by
          simp [retryGo, hf]
        rw [he]
        exact ⟨Nat.le_refl 1, fun i hi => absurd hi (by simp)⟩
      · have he : retryGo cfg f attempt (fuel + 1)
            = ⟨(retryGo cfg f (attempt + 1) fuel).result,
               (retryGo cfg f (attempt + 1) fuel).attempts + 1,
               retryDelay cfg attempt false :: (retryGo cfg f (attempt + 1) fuel).delays⟩ := by
          simp [retryGo, hf, hfu]
        rw [he]
        refine ⟨Nat.succ_le_succ (ih (attempt + 1)).1, ?_⟩
        intro i hi
        cases i with
        | zero => simp [hf]
        | succ j =>
          simp only [List.getD_cons_succ]
          simp only [List.length_cons, Nat.succ_lt_succ_iff] at hi
          have hj := (ih (attempt + 1)).2 j hi
          have harr : attempt + 1 + j = attempt + (j + 1) := by omega
          rw [hj, harr]

/-- C6: the retry schedule.  For every provider configuration the loop
issues at most `max_attempts` attempts, the delay after the `i`-th failed
attempt is the fixed cooldown when that attempt hit a 429 and otherwise
`backoff_factor * 2^(attempt-1)` capped at `max_delay`; the
search-interest provider's configuration fixes a 3-attempt budget and the
60-second cooldown. -/
theorem retry_backoff_schedule (cfg : RetryConfig) (f : Nat → AttemptOutcome) :
    ((runRetry cfg f).attempts ≤ cfg.maxAttempts
      ∧ ∀ i, i < (runRetry cfg f).delays.length →
          (runRetry cfg f).delays.getD i 0
            = retryDelay cfg (i + 1) (decide (f (i + 1) = .http429)))
    ∧ (∀ attempt, retryDelay cfg attempt true = cfg.cooldown429)
    ∧ (∀ attempt, retryDelay cfg attempt false
        = min (cfg.backoffFactor * 2 ^ (attempt - 1)) cfg.maxDelay)
    ∧ googleTrendsRetryConfig.maxAttempts = 3
    ∧ googleTrendsRetryConfig.cooldown429 = 60 := by
  refine ⟨⟨(retryGo_spec cfg f cfg.maxAttempts 1).1, ?_⟩, fun _ => rfl, fun _ => rfl, rfl, rfl⟩
  intro i hi
  have := (retryGo_spec cfg f cfg.maxAttempts 1).2 i hi
  simpa [Nat.add_comm] using this

/-- Witness for `retry_backoff_schedule`: a 429 on the first attempt of
the search-interest provider forces the 60-second cooldown, and the loop
stays within the 3-attempt budget. -/
theorem retry_backoff_schedule_witness :
    (runRetry googleTrendsRetryConfig
        (fun n => if n = 1 then .http429 else .ok "data")).attempts ≤ 3
    ∧ (runRetry googleTrendsRetryConfig
        (fun n => if n = 1 then .http429 else .ok "data")).delays.getD 0 0 = 60 := by
  have h := retry_backoff_schedule googleTrendsRetryConfig
    (fun n => if n = 1 then .http429 else .ok "data")
  refine ⟨h.1.1, ?_⟩
  have h0 := h.1.2 0 (by decide)
  simpa using h0

/-- C7: an empty segment `ExpenditureVector` yields the neutral profile —
archetype "equilibrado" with confidence 0 — and the analyzer, being a
total function, does not raise. -/
theorem analyze_empty_vector_neutral (baseline : ExpenditureVector)
    (signals : List String) :
    analyze [] baseline signals = ⟨"equilibrado", 0, sentimentIndexOf signals, []⟩ := by
  simp [analyze]

/-- Helper: any article produced by the collection loop either was in the
accumulator already or carries an allow-listed source domain. -/
theorem collectArticles_mem (fetch : String → String → List NewsArticle) (query : String)
    (maxResults minDate : Nat) :
    ∀ ds acc a, a ∈ collectArticles fetch query maxResults minDate ds acc →
      a ∈ acc ∨ a.sourceDomain ∈ allowedDomains := by
  intro ds
  induction ds with
  | nil => intro acc a h; exact .inl h
  | cons d ds ih =>
    intro acc a h
    unfold collectArticles at h
    split at h
    · exact .inl h
    · rcases ih _ a h with h1 | h2
      · rcases List.mem_append.1 h1 with h3 | h4
        · exact .inl h3
        · right
          have h5 := (List.take_sublist _ _).subset h4
          have h6 := (List.mem_filter.1 h5).2
          rw [Bool.and_eq_true] at h6
          exact of_decide_eq_true h6.1
      · exact .inr h2

/-- C8: every article surfaced by `scrape_news` originates from a domain
on the explicit allow-list. -/
theorem scrapeNews_sources_allowlisted (fetch : String → String → List NewsArticle)
    (query : String) (maxResults daysBack now : Nat) (a : NewsArticle)
    (h : a ∈ scrapeNews fetch query maxResults daysBack now) :
    a.sourceDomain ∈ allowedDomains := by
  unfold scrapeNews at h
  have h1 := (List.take_sublist _ _).subset h
  have h2 := (List.perm_insertionSort pubGe _).mem_iff.1 h1
  rcases collectArticles_mem fetch query maxResults (now - daysBack) allowedDomains [] a h2
    with h3 | h4
  · cases h3
  · exact h4

/-- Witness for `scrapeNews_sources_allowlisted` at a concrete oracle. -/
theorem scrapeNews_sources_allowlisted_witness :
    (⟨"Censo 2022", "corpo", 100, "www.ibge.gov.br"⟩ : NewsArticle)
        ∈ scrapeNews (fun _ _ => [⟨"Censo 2022", "corpo", 100, "www.ibge.gov.br"⟩])
          "censo" 10 30 110
    ∧ (⟨"Censo 2022", "corpo", 100, "www.ibge.gov.br"⟩ : NewsArticle).sourceDomain
        ∈ allowedDomains := by
  have hmem : (⟨"Censo 2022", "corpo", 100, "www.ibge.gov.br"⟩ : NewsArticle)
      ∈ scrapeNews (fun _ _ => [⟨"Censo 2022", "corpo", 100, "www.ibge.gov.br"⟩])
        "censo" 10 30 110 := by decide
  exact ⟨hmem, scrapeNews_sources_allowlisted _ "censo" 10 30 110 _ hmem⟩

/-- C10: `scrape_news` returns at most `max_results` articles, sorted by
publication timestamp in descending order (most recent first). -/
theorem scrapeNews_bounded_and_sorted_desc (fetch : String → String → List NewsArticle)
    (query : String) (maxResults daysBack now : Nat) :
    (scrapeNews fetch query maxResults daysBack now).length ≤ maxResults
    ∧ (scrapeNews fetch query maxResults daysBack now).Sorted pubGe := by
  constructor
  · show ((List.insertionSort pubGe
        (collectArticles fetch query maxResults (now - daysBack) allowedDomains [])).take
          maxResults).length ≤ maxResults
    rw [List.length_take]
    exact min_le_left _ _
  · show ((List.insertionSort pubGe
        (collectArticles fetch query maxResults (now - daysBack) allowedDomains [])).take
          maxResults).Sorted pubGe
    exact (List.sorted_insertionSort pubGe _).sublist (List.take_sublist _ _)

/-! ### Cache-key canonicality and injectivity (C9)

The development below shows that the serialized parameter dictionary is
uniquely parseable from the right, so that the composite key
`table_code ++ ":" ++ dumps(params)` distinguishes every pair of distinct
requests, while `sort_keys=True` makes it independent of parameter
order. -/

/-- The escape of a character is never empty. -/
theorem escCh_ne_nil (c : Char) : escCh c ≠ [] := by
  unfold escCh
  split <;> simp

/-- Character escapes are either a backslash pair or the verbatim
character, the latter never being a quote or a backslash. -/
theorem escCh_cases (c : Char) :
    (∃ x, escCh c = ['\\', x]) ∨ (escCh c = [c] ∧ c ≠ '"' ∧ c ≠ '\\') := by
  unfold escCh
  split
  · exact .inl ⟨escCode c, rfl⟩
  · rename_i hs
    push_neg at hs
    exact .inr ⟨rfl, hs.1, hs.2.1⟩

/-- The second character of an escape pair determines the escaped
character. -/
theorem escCh_pair_det (c x : Char) (h : escCh c = ['\\', x]) :
    c = (if x = '"' then '"' else if x = '\\' then '\\' else if x = 'n' then '\n'
      else if x = 't' then '\t' else if x = 'r' then '\r' else x) := by
  unfold escCh at h
  split at h
  · rename_i hs
    have hx : escCode c = x := by simpa using h
    rcases hs with h1 | h1 | h1 | h1 | h1 <;> subst h1 <;> simp [escCode] at hx <;>
      subst hx <;> simp
  · simp at h

/-- Escaped sequences contain a bare quote character only as the second
half of a backslash pair: any quote in the escape output is immediately
preceded by a backslash. -/
theorem esc_no_bare_quote :
    ∀ s u w, escL s = u ++ '"' :: w → ∃ u2, u = u2 ++ ['\\'] := by
  intro s
  induction s with
  | nil =>
    intro u w h
    exact absurd h.symm (by simp [escL])
  | cons c s ih =>
    intro u w h
    rw [show escL (c :: s) = escCh c ++ escL s from rfl] at h
    rcases escCh_cases c with ⟨x, hc⟩ | ⟨hc, hq, hb⟩
    · rw [hc] at h
      cases u with
      | nil => simp at h
      | cons a u2 =>
        cases u2 with
        | nil =>
          simp only [List.cons_append, List.nil_append, List.cons.injEq] at h
          exact ⟨[], by simp [h.1.symm]⟩
        | cons b u3 =>
          simp only [List.cons_append, List.cons.injEq] at h
          obtain ⟨ha, hb2, h3⟩ := h
          obtain ⟨u4, hu4⟩ := ih u3 w h3
          exact ⟨a :: b :: u4, by simp [hu4]⟩
    · rw [hc] at h
      cases u with
      | nil =>
        simp only [List.cons_append, List.nil_append, List.cons.injEq] at h
        exact absurd h.1 hq
      | cons a u2 =>
        simp only [List.cons_append, List.cons.injEq] at h
        obtain ⟨u4, hu4⟩ := ih u2 w h.2
        exact ⟨a :: u4, by simp [hu4]⟩

/-- The character escape map is injective on sequences. -/
theorem escL_inj : ∀ s1 s2 : List Char, escL s1 = escL s2 → s1 = s2 := by
  intro s1
  induction s1 with
  | nil =>
    intro s2 h
    cases s2 with
    | nil => rfl
    | cons c t =>
      rw [show escL (c :: t) = escCh c ++ escL t from rfl] at h
      rcases List.append_eq_nil.1 h.symm with ⟨h1, _⟩
      exact absurd h1 (escCh_ne_nil c)
  | cons c1 t1 ih =>
    intro s2 h
    cases s2 with
    | nil =>
      rw [show escL (c1 :: t1) = escCh c1 ++ escL t1 from rfl] at h
      rcases List.append_eq_nil.1 h with ⟨h1, _⟩
      exact absurd h1 (escCh_ne_nil c1)
    | cons c2 t2 =>
      rw [show escL (c1 :: t1) = escCh c1 ++ escL t1 from rfl,
        show escL (c2 :: t2) = escCh c2 ++ escL t2 from rfl] at h
      rcases escCh_cases c1 with ⟨x1, hc1⟩ | ⟨hc1, hq1, hb1⟩ <;>
        rcases escCh_cases c2 with ⟨x2, hc2⟩ | ⟨hc2, hq2, hb2⟩
      · rw [hc1, hc2] at h
        simp only [List.cons_append, List.cons.injEq] at h
        obtain ⟨_, hx, ht⟩ := h
        subst hx
        rw [escCh_pair_det c1 x1 hc1, escCh_pair_det c2 x1 hc2, ih t2 ht]
      · rw [hc1, hc2] at h
        simp only [List.cons_append, List.cons.injEq] at h
        exact absurd h.1.symm hb2
      · rw [hc1, hc2] at h
        simp only [List.cons_append, List.cons.injEq] at h
        exact absurd h.1 hb1
      · rw [hc1, hc2] at h
        simp only [List.cons_append, List.cons.injEq] at h
        rw [h.1, ih t2 h.2]

/-- Right-anchored unambiguity of quoted strings: equal strings that end
in two quoted literals and whose prefixes do not end in a backslash agree
on the literal and on the prefix. -/
theorem quoteC_right (a b x y : List Char) (hx : x.getLast? ≠ some '\\')
    (hy : y.getLast? ≠ some '\\') (h : x ++ quoteC a = y ++ quoteC b) :
    x = y ∧ a = b := by
  have h2 : (x ++ '"' :: escL a) ++ ['"'] = (y ++ '"' :: escL b) ++ ['"'] := by
    simpa [quoteC, List.append_assoc] using h
  have h3 : x ++ '"' :: escL a = y ++ '"' :: escL b := List.append_cancel_right h2
  rcases List.append_eq_append_iff.1 h3 with ⟨w, hw1, hw2⟩ | ⟨w, hw1, hw2⟩
  · cases w with
    | nil =>
      refine ⟨by simpa using hw1.symm, ?_⟩
      simp only [List.nil_append, List.cons.injEq] at hw2
      exact escL_inj _ _ hw2.2
    | cons cw w2 =>
      simp only [List.cons_append, List.cons.injEq] at hw2
      obtain ⟨u2, hu2⟩ := esc_no_bare_quote a w2 _ hw2.2
      rw [hw1, hu2, show x ++ cw :: (u2 ++ ['\\']) = (x ++ cw :: u2) ++ ['\\'] by simp] at hy
      exact absurd (List.getLast?_concat _) hy
  · cases w with
    | nil =>
      refine ⟨by simpa using hw1, ?_⟩
      simp only [List.nil_append, List.cons.injEq] at hw2
      exact (escL_inj _ _ hw2.2).symm
    | cons cw w2 =>
      simp only [List.cons_append, List.cons.injEq] at hw2
      obtain ⟨u2, hu2⟩ := esc_no_bare_quote b w2 _ hw2.2
      rw [hw1, hu2, show y ++ cw :: (u2 ++ ['\\']) = (y ++ cw :: u2) ++ ['\\'] by simp] at hx
      exact absurd (List.getLast?_concat _) hx

/-- Serialized entry lists extend on the right one entry at a time. -/
theorem entriesL_concat (l : List (String × String)) (e : String × String) :
    entriesL (l ++ [e])
      = (if l = [] then [] else entriesL l ++ [',', ' ']) ++ entStr e := by
  induction l with
  | nil => simp [entriesL]
  | cons a l ih =>
    cases l with
    | nil => simp [entriesL]
    | cons b l2 =>
      simp only [List.cons_append] at ih ⊢
      rw [show entriesL (a :: b :: (l2 ++ [e]))
          = entStr a ++ ',' :: ' ' :: entriesL (b :: (l2 ++ [e])) from rfl, ih]
      simp [entriesL]

/-- A nonempty serialized entry list is nonempty as text. -/
theorem entriesL_ne_nil (l : List (String × String)) (h : l ≠ []) :
    entriesL l ≠ [] := by
  cases l with
  | nil => exact absurd rfl h
  | cons e l2 =>
    cases l2 with
    | nil => simp [entriesL, entStr, quoteC]
    | cons b l3 => simp [entriesL, entStr, quoteC]

/-- A nonempty serialized entry list ends in the closing quote of its last
value. -/
theorem entriesL_last (l : List (String × String)) (h : l ≠ []) :
    (entriesL l).getLast? = some '"' := by
  induction l with
  | nil => exact absurd rfl h
  | cons e l2 ih =>
    cases l2 with
    | nil =>
      show (entStr e).getLast? = some '"'
      rw [show entStr e
          = (quoteC e.1.data ++ ':' :: ' ' :: ('"' :: escL e.2.data)) ++ ['"'] by
        simp [entStr, quoteC]]
      exact List.getLast?_concat _
    | cons b l3 =>
      rw [show entriesL (e :: b :: l3) = entStr e ++ (',' :: ' ' :: entriesL (b :: l3))
        from rfl, List.getLast?_append,
        show ',' :: ' ' :: entriesL (b :: l3) = [',', ' '] ++ entriesL (b :: l3) from rfl,
        List.getLast?_append, ih (by simp)]
      rfl

/-- Cancelling a common two-character suffix. -/
theorem append_pair_cancel (A B : List Char) (a b : Char)
    (h : A ++ [a, b] = B ++ [a, b]) : A = B := by
  have h2 : (A ++ [a]) ++ [b] = (B ++ [a]) ++ [b] := by
    simpa [List.append_assoc] using h
  exact List.append_cancel_right (List.append_cancel_right h2)

set_option maxRecDepth 8000 in
/-- Right-anchored comparison of two serialized entry lists sharing one
text: the shorter one is a suffix of the longer one across a full
separator, or they coincide. -/
theorem entries_right :
    ∀ (l2 l1 : List (String × String)) (x y : List Char),
      x.getLast? ≠ some '\\' → y.getLast? ≠ some '\\' →
      l1 ≠ [] → l2 ≠ [] →
      x ++ entriesL l1 = y ++ entriesL l2 →
      (x = y ∧ l1 = l2)
        ∨ (∃ m, m ≠ [] ∧ x = y ++ entriesL m ++ [',', ' '] ∧ l2 = m ++ l1)
        ∨ (∃ m, m ≠ [] ∧ y = x ++ entriesL m ++ [',', ' '] ∧ l1 = m ++ l2) := by
  intro l2
  induction l2 using List.reverseRecOn with
  | nil => intro l1 x y _ _ _ h2; exact absurd rfl h2
  | append_singleton l2 e2 ih =>
    intro l1 x y hx hy h1 h2 heq
    rcases List.eq_nil_or_concat' l1 with rfl | ⟨l1', e1, rfl⟩
    · exact absurd rfl h1
    · rw [entriesL_concat l1' e1, entriesL_concat l2 e2] at heq
      obtain ⟨p1, hp1⟩ : ∃ p : List Char,
          (if l1' = [] then ([] : List Char) else entriesL l1' ++ [',', ' ']) = p := ⟨_, rfl⟩
      obtain ⟨p2, hp2⟩ : ∃ p : List Char,
          (if l2 = [] then ([] : List Char) else entriesL l2 ++ [',', ' ']) = p := ⟨_, rfl⟩
      rw [hp1, hp2] at heq
      have hx1 : (x ++ p1).getLast? ≠ some '\\' := by
        by_cases hc : l1' = []
        · rw [if_pos hc] at hp1
          rw [← hp1]
          simpa using hx
        · rw [if_neg hc] at hp1
          rw [← hp1, show x ++ (entriesL l1' ++ [',', ' '])
              = (x ++ entriesL l1' ++ [',']) ++ [' '] by simp, List.getLast?_concat]
          simp
      have hy1 : (y ++ p2).getLast? ≠ some '\\' := by
        by_cases hc : l2 = []
        · rw [if_pos hc] at hp2
          rw [← hp2]
          simpa using hy
        · rw [if_neg hc] at hp2
          rw [← hp2, show y ++ (entriesL l2 ++ [',', ' '])
              = (y ++ entriesL l2 ++ [',']) ++ [' '] by simp, List.getLast?_concat]
          simp
      have heq2 : ((x ++ p1) ++ (quoteC e1.1.data ++ [':', ' '])) ++ quoteC e1.2.data
          = ((y ++ p2) ++ (quoteC e2.1.data ++ [':', ' '])) ++ quoteC e2.2.data := by
        have h := heq
        simp only [entStr, List.append_assoc, List.cons_append, List.nil_append] at h ⊢
        exact h
      have hxq : ((x ++ p1) ++ (quoteC e1.1.data ++ [':', ' '])).getLast? ≠ some '\\' := by
        rw [show (x ++ p1) ++ (quoteC e1.1.data ++ [':', ' '])
            = ((x ++ p1) ++ quoteC e1.1.data ++ [':']) ++ [' '] by simp,
          List.getLast?_concat]
        simp
      have hyq : ((y ++ p2) ++ (quoteC e2.1.data ++ [':', ' '])).getLast? ≠ some '\\' := by
        rw [show (y ++ p2) ++ (quoteC e2.1.data ++ [':', ' '])
            = ((y ++ p2) ++ quoteC e2.1.data ++ [':']) ++ [' '] by simp,
          List.getLast?_concat]
        simp
      obtain ⟨hkv, hv⟩ := quoteC_right _ _ _ _ hxq hyq heq2
      have hkv2 : ((x ++ p1) ++ quoteC e1.1.data) ++ [':', ' ']
          = ((y ++ p2) ++ quoteC e2.1.data) ++ [':', ' '] := by
        simpa [List.append_assoc] using hkv
      have hkv3 : (x ++ p1) ++ quoteC e1.1.data = (y ++ p2) ++ quoteC e2.1.data :=
        append_pair_cancel _ _ _ _ hkv2
      obtain ⟨hpre, hk⟩ := quoteC_right _ _ _ _ hx1 hy1 hkv3
      have he12 : e1 = e2 := by
        rcases e1 with ⟨k1, v1⟩
        rcases e2 with ⟨k2, v2⟩
        simp only [Prod.mk.injEq]
        constructor
        · cases k1; cases k2; exact congrArg String.mk hk
        · cases v1; cases v2; exact congrArg String.mk hv
      by_cases hc1 : l1' = [] <;> by_cases hc2 : l2 = []
      · left
        rw [if_pos hc1] at hp1
        rw [if_pos hc2] at hp2
        refine ⟨?_, by simp [hc1, hc2, he12]⟩
        rw [← hp1, ← hp2] at hpre
        simpa using hpre
      · right; left
        rw [if_pos hc1] at hp1
        rw [if_neg hc2] at hp2
        refine ⟨l2, hc2, ?_, by simp [hc1, he12]⟩
        rw [← hp1, ← hp2] at hpre
        simpa [List.append_assoc] using hpre
      · right; right
        rw [if_neg hc1] at hp1
        rw [if_pos hc2] at hp2
        refine ⟨l1', hc1, ?_, by simp [hc2, he12]⟩
        rw [← hp1, ← hp2] at hpre
        simpa [List.append_assoc] using hpre.symm
      · rw [if_neg hc1] at hp1
        rw [if_neg hc2] at hp2
        rw [← hp1, ← hp2] at hpre
        have hpre2 : (x ++ entriesL l1') ++ [',', ' '] = (y ++ entriesL l2) ++ [',', ' '] := by
          simpa [List.append_assoc] using hpre
        have hpre3 : x ++ entriesL l1' = y ++ entriesL l2 :=
          append_pair_cancel _ _ _ _ hpre2
        rcases ih l1' x y hx hy hc1 hc2 hpre3 with ⟨hxy, hll⟩ | ⟨m, hm, hxm, hlm⟩ |
          ⟨m, hm, hym, hlm⟩
        · left
          exact ⟨hxy, by rw [hll, he12]⟩
        · right; left
          exact ⟨m, hm, hxm, by rw [hlm, he12, List.append_assoc]⟩
        · right; right
          exact ⟨m, hm, hym, by rw [hlm, he12, List.append_assoc]⟩

/-- The serialized dictionary determines the (sorted) entry list. -/
theorem dumpsL_inj (l1 l2 : List (String × String)) (h : dumpsL l1 = dumpsL l2) :
    l1 = l2 := by
  have h2 : ('{' :: entriesL l1) ++ ['}'] = ('{' :: entriesL l2) ++ ['}'] := by
    simpa [dumpsL] using h
  have h3 : entriesL l1 = entriesL l2 := by
    have := List.append_cancel_right h2
    simpa using this
  rcases List.eq_nil_or_concat' l1 with rfl | ⟨l1', e1, rfl⟩
  · rcases List.eq_nil_or_concat' l2 with rfl | ⟨l2', e2, rfl⟩
    · rfl
    · exact absurd h3.symm (entriesL_ne_nil _ (by simp))
  · rcases List.eq_nil_or_concat' l2 with rfl | ⟨l2', e2, rfl⟩
    · exact absurd h3 (entriesL_ne_nil _ (by simp))
    · have h4 : ([] : List Char) ++ entriesL (l1' ++ [e1])
          = ([] : List Char) ++ entriesL (l2' ++ [e2]) := by simpa using h3
      rcases entries_right (l2' ++ [e2]) (l1' ++ [e1]) [] [] (by simp) (by simp)
        (by simp) (by simp) h4 with ⟨_, hll⟩ | ⟨m, hm, hxm, _⟩ | ⟨m, hm, hym, _⟩
      · exact hll
      · exact absurd hxm.symm (by simp [entriesL_ne_nil])
      · exact absurd hym.symm (by simp [entriesL_ne_nil])

/-- No serialized dictionary occurs as a proper suffix of another one
across a colon: the composite cache key admits only one reading. -/
theorem dumpsL_no_splice (l1 l2 : List (String × String)) (q : List Char)
    (h : dumpsL l1 = q ++ ':' :: dumpsL l2) : False := by
  have h2 : ('{' :: entriesL l1) ++ ['}']
      = (q ++ ':' :: '{' :: entriesL l2) ++ ['}'] := by
    simpa [dumpsL] using h
  have h3 : '{' :: entriesL l1 = q ++ ':' :: '{' :: entriesL l2 :=
    List.append_cancel_right h2
  rcases List.eq_nil_or_concat' l1 with rfl | ⟨l1', e1, rfl⟩
  · have hlen := congrArg List.length h3
    simp [entriesL] at hlen
    omega
  · rcases List.eq_nil_or_concat' l2 with rfl | ⟨l2', e2, rfl⟩
    · have hlast := congrArg List.getLast? h3
      rw [show ('{' :: entriesL (l1' ++ [e1])) = ['{'] ++ entriesL (l1' ++ [e1]) from rfl,
        List.getLast?_append, entriesL_last _ (by simp)] at hlast
      rw [show (q ++ ':' :: '{' :: entriesL ([] : List (String × String)))
          = (q ++ [':']) ++ ['{'] by simp [entriesL], List.getLast?_concat] at hlast
      simp at hlast
    · have h4 : ['{'] ++ entriesL (l1' ++ [e1])
          = (q ++ [':', '{']) ++ entriesL (l2' ++ [e2]) := by
        simpa [List.append_assoc] using h3
      have hy : (q ++ [':', '{']).getLast? ≠ some '\\' := by
        rw [show q ++ [':', '{'] = (q ++ [':']) ++ ['{'] by simp, List.getLast?_concat]
        simp
      rcases entries_right (l2' ++ [e2]) (l1' ++ [e1]) ['{'] (q ++ [':', '{'])
        (by simp) hy (by simp) (by simp) h4 with ⟨hxy, _⟩ | ⟨m, hm, hxm, _⟩ |
        ⟨m, hm, hym, _⟩
      · have := congrArg List.length hxy
        simp at this
      · have := congrArg List.length hxm
        have hml : entriesL m ≠ [] := entriesL_ne_nil m hm
        simp at this
        omega
      · have hlast := congrArg List.getLast? hym
        rw [show q ++ [':', '{'] = (q ++ [':']) ++ ['{'] by simp,
          List.getLast?_concat] at hlast
        rw [show ['{'] ++ entriesL m ++ [',', ' ']
            = (['{'] ++ entriesL m ++ [',']) ++ [' '] by simp,
          List.getLast?_concat] at hlast
        simp at hlast

/-- Sorting with distinct keys canonicalizes: permuted parameter lists
sort identically. -/
theorem sortParams_eq_of_perm (ps1 ps2 : List (String × String))
    (hp : List.Perm ps1 ps2) (hk : (ps1.map Prod.fst).Nodup) :
    sortParams ps1 = sortParams ps2 := by
  have hperm : List.Perm (sortParams ps1) (sortParams ps2) :=
    ((List.perm_insertionSort keyLe ps1).trans hp).trans
      (List.perm_insertionSort keyLe ps2).symm
  have hk1 : ((sortParams ps1).map Prod.fst).Nodup :=
    (((List.perm_insertionSort keyLe ps1).map Prod.fst).nodup_iff).2 hk
  have hk2 : ((sortParams ps2).map Prod.fst).Nodup :=
    ((hperm.map Prod.fst).nodup_iff).1 hk1
  have hs1 : (sortParams ps1).Sorted keyLt := by
    have hle : (sortParams ps1).Sorted keyLe := List.sorted_insertionSort keyLe ps1
    have hne : (sortParams ps1).Pairwise (fun a b => a.1 ≠ b.1) :=
      List.pairwise_map.1 hk1
    exact (hle.and hne).imp (fun h => lt_of_le_of_ne h.1 h.2)
  have hs2 : (sortParams ps2).Sorted keyLt := by
    have hle : (sortParams ps2).Sorted keyLe := List.sorted_insertionSort keyLe ps2
    have hne : (sortParams ps2).Pairwise (fun a b => a.1 ≠ b.1) :=
      List.pairwise_map.1 hk2
    exact (hle.and hne).imp (fun h => lt_of_le_of_ne h.1 h.2)
  exact List.eq_of_perm_of_sorted hperm hs1 hs2

/-- C9: the cache key of `get_table` is order-independent and injective —
two requests (with the key-uniqueness every Python dictionary guarantees)
share a cache key exactly when they query the same table with the same
parameter set, in whatever order the parameters were supplied. -/
theorem cacheKey_order_independent_injective (t1 t2 : String)
    (ps1 ps2 : List (String × String)) (h1 : (ps1.map Prod.fst).Nodup)
    (h2 : (ps2.map Prod.fst).Nodup) :
    cacheKeyL t1 ps1 = cacheKeyL t2 ps2
      ↔ (t1 = t2 ∧ ∀ kv, kv ∈ ps1 ↔ kv ∈ ps2) := by
  constructor
  · intro h
    rcases List.append_eq_append_iff.1 h with ⟨w, hw1, hw2⟩ | ⟨w, hw1, hw2⟩
    · cases w with
      | nil =>
        have ht : t1 = t2 := by
          cases t1; cases t2; exact congrArg String.mk (by simpa using hw1.symm)
        simp only [List.nil_append, List.cons.injEq] at hw2
        have hsort : sortParams ps1 = sortParams ps2 := dumpsL_inj _ _ hw2.2
        refine ⟨ht, fun kv => ?_⟩
        rw [(List.perm_insertionSort keyLe ps1).symm.mem_iff,
          (List.perm_insertionSort keyLe ps2).symm.mem_iff]
        show kv ∈ sortParams ps1 ↔ kv ∈ sortParams ps2
        rw [hsort]
      | cons cw w2 =>
        simp only [List.cons_append, List.cons.injEq] at hw2
        exact absurd hw2.2 (fun hc => dumpsL_no_splice _ _ _ hc)
    · cases w with
      | nil =>
        have ht : t1 = t2 := by
          cases t1; cases t2; exact congrArg String.mk (by simpa using hw1)
        simp only [List.nil_append, List.cons.injEq] at hw2
        have hsort : sortParams ps2 = sortParams ps1 := dumpsL_inj _ _ hw2.2
        refine ⟨ht, fun kv => ?_⟩
        rw [(List.perm_insertionSort keyLe ps1).symm.mem_iff,
          (List.perm_insertionSort keyLe ps2).symm.mem_iff]
        show kv ∈ sortParams ps1 ↔ kv ∈ sortParams ps2
        rw [hsort]
      | cons cw w2 =>
        simp only [List.cons_append, List.cons.injEq] at hw2
        exact absurd hw2.2 (fun hc => dumpsL_no_splice _ _ _ hc)
  · rintro ⟨rfl, hmem⟩
    have hnd1 : ps1.Nodup := List.Nodup.of_map _ h1
    have hnd2 : ps2.Nodup := List.Nodup.of_map _ h2
    have hperm : List.Perm ps1 ps2 := (List.perm_ext_iff_of_nodup hnd1 hnd2).2 hmem
    unfold cacheKeyL
    rw [sortParams_eq_of_perm ps1 ps2 hperm h1]

/-- Witness for `cacheKey_order_independent_injective`: swapping the two
parameters leaves the key unchanged. -/
theorem cacheKey_order_independent_injective_witness :
    cacheKeyL "t/6401/n1/all" [("f", "c"), ("h", "n")]
      = cacheKeyL "t/6401/n1/all" [("h", "n"), ("f", "c")] := by
  refine (cacheKey_order_independent_injective "t/6401/n1/all" "t/6401/n1/all"
    [("f", "c"), ("h", "n")] [("h", "n"), ("f", "c")] (by decide) (by decide)).2
    ⟨rfl, fun kv => ?_⟩
  simp only [List.mem_cons, List.not_mem_nil, or_false]
  tauto

end Target
